import Mathlib

/-!
# Reuse-metrics dashboard script (`src/scripts/reuse_metrics_inject.js`)

A shallow embedding of `fetchReuseMetrics` and of the `DOMContentLoaded` handler.

Modelling conventions.

* A metric record has the two display strings `owner`, `name` and three optional counts.
  `none` is the JavaScript `undefined` of an absent property. A count is an integer-valued
  finite JavaScript number, given by its integer value.
* JavaScript numbers are IEEE 754 doubles. `roundNearest` rounds an exact integer result to
  53 significant bits (nearest, ties to even); a result of magnitude `2 ^ 1024` or more is an
  infinity. `Num.add` and `Num.sub` are the operators `+` and `-` on such numbers, and
  `numberToString` is the conversion of a number to a string in a template literal.
* `Array.prototype.sort` calls the comparator and treats a `NaN` result as `+0`. The order
  of elements that compare equal is left to the engine by the source; ECMAScript 2019 and
  later require a stable sort. `jsSort` is the stable insertion sort, and `topReposWith`
  takes the sort of the engine as a parameter.
* Asynchronous code is sequential composition: every call in the source is awaited.
  A function that may throw returns the page it leaves behind and a `Completion`.
-/

set_option maxRecDepth 100000
set_option exponentiation.threshold 2000

namespace ReuseMetrics

/-! ## Data model -/

/-- One element of the array in `data/reuse_metrics.json`. -/
structure MetricRecord where
  owner : String
  name : String
  forks_count : Option Int
  clones_count : Option Int
  downloads_count : Option Int
  deriving DecidableEq, Repr

/-! ## JavaScript numbers on integer values -/

/-- A number that the script computes from integer counts: a finite double of integer value,
an infinity, or `NaN`. -/
inductive Num
  | finite (n : Int)
  | posInf
  | negInf
  | nan
  deriving DecidableEq, Repr

/-- The position of the highest set bit of `a` (0 for `a < 2`), by halving. -/
def log2Fuel : Nat → Nat → Nat
  | 0, _ => 0
  | fuel + 1, a => if a < 2 then 0 else log2Fuel fuel (a / 2) + 1

/-- Rounding of an exact integer to 53 significant bits, to nearest and ties to even, with
no bound on the exponent. Integers of magnitude up to `2 ^ 53` are kept. Above, with
`q` the spacing of the doubles around `n`, the quotient `m` has 53 bits and goes up when
the remainder is more than half of `q`, or exactly half with `m` odd. -/
def roundNearest (n : Int) : Int :=
  if n.natAbs ≤ 9007199254740992 then n
  else
    let q : Nat := 2 ^ (log2Fuel n.natAbs n.natAbs - 52)
    let m : Nat := n.natAbs / q
    let r : Nat := n.natAbs % q
    let m' : Nat := if 2 * r > q ∨ (2 * r = q ∧ m % 2 = 1) then m + 1 else m
    if n < 0 then -((m' * q : Nat) : Int) else ((m' * q : Nat) : Int)

/-- The double that an exact integer result becomes: rounded, and an infinity when the
rounded magnitude reaches `2 ^ 1024`. -/
def Num.ofExact (n : Int) : Num :=
  if (roundNearest n).natAbs < 2 ^ 1024 then .finite (roundNearest n)
  else if n < 0 then .negInf else .posInf

/-- The operator `+` on numbers. -/
def Num.add : Num → Num → Num
  | .finite a, .finite b => Num.ofExact (a + b)
  | .nan, _ => .nan
  | _, .nan => .nan
  | .posInf, .negInf => .nan
  | .negInf, .posInf => .nan
  | .posInf, _ => .posInf
  | _, .posInf => .posInf
  | .negInf, _ => .negInf
  | _, .negInf => .negInf

/-- The operator `-` on numbers. -/
def Num.sub : Num → Num → Num
  | .finite a, .finite b => Num.ofExact (a - b)
  | .nan, _ => .nan
  | _, .nan => .nan
  | .posInf, .posInf => .nan
  | .negInf, .negInf => .nan
  | .posInf, _ => .posInf
  | _, .negInf => .posInf
  | .negInf, _ => .negInf
  | _, .posInf => .negInf

/-- The test `v > 0` that a sort makes on the result of the comparator (`NaN` counts
as `+0`). -/
def Num.isPos : Num → Bool
  | .finite n => decide (n > 0)
  | .posInf => true
  | _ => false

/-- The test `v < 0` that a sort makes on the result of the comparator. -/
def Num.isNeg : Num → Bool
  | .finite n => decide (n < 0)
  | .negInf => true
  | _ => false

/-- The pairs `(s, n)` for `k` digits in the conversion of the double `v` to a string:
`s` has `k` decimal digits and `s * 10 ^ (n - k)` is a number whose double is `v`. -/
def shortestCandidates (v : Nat) (k : Nat) : List (Nat × Nat) :=
  [(Nat.toDigits 10 v).length, (Nat.toDigits 10 v).length + 1].flatMap fun n =>
    if n < k then []
    else
      [v / 10 ^ (n - k), v / 10 ^ (n - k) + 1].filterMap fun s =>
        if 10 ^ (k - 1) ≤ s ∧ s < 10 ^ k
            ∧ roundNearest ((s * 10 ^ (n - k) : Nat) : Int) = (v : Int) then
          some (s, n)
        else none

/-- Among several candidates, the one whose value is closest to `v`. -/
def closest (v : Nat) (k : Nat) : List (Nat × Nat) → Option (Nat × Nat)
  | [] => none
  | c :: cs =>
    match closest v k cs with
    | none => some c
    | some c' =>
      if (((c.1 * 10 ^ (c.2 - k) : Nat) : Int) - (v : Int)).natAbs
          ≤ (((c'.1 * 10 ^ (c'.2 - k) : Nat) : Int) - (v : Int)).natAbs then some c
      else some c'

/-- The digits `s`, the exponent `n` and the number of digits `k` of the conversion of the
double `v`: the least `k`, from `k` on, that has a candidate (17 digits always do). -/
def shortestDigits (v : Nat) : Nat → Nat → Option (Nat × Nat × Nat)
  | 0, _ => none
  | fuel + 1, k =>
    match closest v k (shortestCandidates v k) with
    | some (s, n) => some (s, n, k)
    | none => shortestDigits v fuel (k + 1)

/-- The conversion of a non-negative integer-valued double to a string. An integer up to
`2 ^ 53` is its decimal digits. Above, the shortest digits that give the double back are
followed by zeros when the exponent `n` is at most 21, and are written with `e+` beyond. -/
def natToString (v : Nat) : String :=
  if v ≤ 9007199254740992 then toString v
  else
    match shortestDigits v 17 1 with
    | none => toString v
    | some (s, n, k) =>
      if n ≤ 21 then toString s ++ String.mk (List.replicate (n - k) '0')
      else if k = 1 then toString s ++ "e+" ++ toString (n - 1)
      else String.mk ((toString s).data.take 1) ++ "." ++ String.mk ((toString s).data.drop 1)
        ++ "e+" ++ toString (n - 1)

/-- The conversion of a count to a string in a template literal. -/
def numberToString (v : Int) : String :=
  if v < 0 then "-" ++ natToString v.natAbs else natToString v.natAbs

/-- The JavaScript comparison `x > 0` on a possibly absent count
(`undefined > 0` is `false`). -/
def gtZero : Option Int → Bool
  | none => false
  | some v => decide (v > 0)

/-- The JavaScript expression `x || 0` on a possibly absent count: `undefined` and `0`
are falsy and give `0`, every other number is returned as it is. -/
def orZero : Option Int → Int
  | none => 0
  | some v => if v = 0 then 0 else v

/-! ## The computation inside `fetchReuseMetrics` (source lines 13 to 39) -/

/-- The arrow function of line 13:
`m => (m.forks_count > 0) || (m.clones_count > 0) || (m.downloads_count > 0)`. -/
def isReused (m : MetricRecord) : Bool :=
  gtZero m.forks_count || gtZero m.clones_count || gtZero m.downloads_count

/-- Line 13: `const reusedRepos = metrics.filter(...)`. -/
def reusedRepos (metrics : List MetricRecord) : List MetricRecord :=
  metrics.filter isReused

/-- Line 14: `const totalReused = reusedRepos.length`. -/
def totalReused (metrics : List MetricRecord) : Nat :=
  (reusedRepos metrics).length

/-- Lines 17 and 18: `(a.forks_count || 0) + (a.clones_count || 0) + (a.downloads_count || 0)`,
two additions of doubles from left to right. -/
def total (a : MetricRecord) : Num :=
  Num.add (Num.add (.finite (orZero a.forks_count)) (.finite (orZero a.clones_count)))
    (.finite (orZero a.downloads_count))

/-- The comparator of lines 16 to 20: `(a, b) => bTotal - aTotal`. -/
def compareFn (a b : MetricRecord) : Num :=
  Num.sub (total b) (total a)

/-- Insertion of `x`, which stood before every element of the already sorted `ys`:
`x` moves behind `y` only when the comparator is positive on `(x, y)`. -/
def insertSorted {α : Type} (cmp : α → α → Num) (x : α) : List α → List α
  | [] => [x]
  | y :: ys => if (cmp x y).isPos then y :: insertSorted cmp x ys else x :: y :: ys

/-- The method `Array.prototype.sort(cmp)` of an engine with a stable sort. -/
def jsSort {α : Type} (cmp : α → α → Num) : List α → List α
  | [] => []
  | x :: xs => insertSorted cmp x (jsSort cmp xs)

/-- Lines 16 to 20, `[...reusedRepos].sort(compareFn).slice(0, 3)`, with the method `sort` of
the engine as `sort`. -/
def topReposWith
    (sort : (MetricRecord → MetricRecord → Num) → List MetricRecord → List MetricRecord)
    (metrics : List MetricRecord) : List MetricRecord :=
  (sort compareFn (reusedRepos metrics)).take 3

/-- Lines 16 to 20: `const topRepos = [...reusedRepos].sort(compareFn).slice(0, 3)`. -/
def topRepos (metrics : List MetricRecord) : List MetricRecord :=
  topReposWith jsSort metrics

/-- The arrow function of lines 23 and 24, one `<li>` per top repository. -/
def topLine (r : MetricRecord) : String :=
  "<li><strong>" ++ r.owner ++ "/" ++ r.name ++ "</strong>: Forks: "
    ++ numberToString (orZero r.forks_count) ++ ", Clones: "
    ++ numberToString (orZero r.clones_count) ++ ", Downloads: "
    ++ numberToString (orZero r.downloads_count) ++ "</li>"

/-- Lines 21 to 26: `topHtml`, empty unless `topRepos.length > 0`. -/
def topHtml (metrics : List MetricRecord) : String :=
  if (topRepos metrics).length > 0 then
    "<ul class=\"list-unstyled\">" ++ String.join ((topRepos metrics).map topLine) ++ "</ul>"
  else ""

/-- The text of the template literal before `${totalReused}` (lines 27 to 33). -/
def cardHead : String :=
  "\n            <div class=\"col-md-12 mb-4\">\n                <div class=\"private-metric-card\">\n                    <div class=\"icon\">\n                        <i class=\"fas fa-recycle\"></i>\n                    </div>\n                    <h2>"

/-- The text of the template literal between `${totalReused}` and the top section
(lines 33 to 36). -/
def cardMid : String :=
  "</h2>\n                    <p>Re-used Repositories</p>\n                    <div class=\"metric-source\">Based on forks, clones, or downloads</div>\n                    "

/-- The text of the template literal after the top section (lines 36 to 39). -/
def cardTail : String :=
  "\n                </div>\n            </div>\n        "

/-- Line 36: a string is truthy exactly when it is not empty. -/
def truthy (s : String) : Bool := !(s == "")

/-- Lines 27 to 39: the template literal `reuseHtml`. The length of an array is below
`2 ^ 32` and is written with its decimal digits. -/
def reuseHtml (metrics : List MetricRecord) : String :=
  cardHead ++ toString (totalReused metrics) ++ cardMid
    ++ (if truthy (topHtml metrics) then
          "<div class=\"mt-3\"><strong>Top Re-used:</strong>" ++ topHtml metrics ++ "</div>"
        else "")
    ++ cardTail

/-! ## The page, thrown errors and the two asynchronous functions -/

/-- What a JavaScript statement of the script can throw. -/
inductive JsError
  /-- The promise of `fetch(url)` rejected. -/
  | networkError
  /-- The promise of `response.json()` rejected: the body is not well-formed JSON. -/
  | syntaxError
  /-- A method was called on `null`. -/
  | typeError
  /-- An error raised inside a collaborator whose body is not part of the script. -/
  | collaborator (tag : String)
  deriving DecidableEq, Repr

/-- How a call ends: it returns, or it throws (an `async` function then rejects). -/
inductive Completion
  | normal
  | throw (e : JsError)
  deriving DecidableEq, Repr

/-- What `await fetch(url)` followed by `.json()` yields. -/
inductive FetchOutcome (α : Type)
  /-- The request failed: `fetch` rejects. -/
  | networkError
  /-- The body is not well-formed JSON: `response.json()` rejects. -/
  | malformed
  /-- The parsed body. -/
  | json (v : α)
  deriving Repr

/-- The part of the browser state the script reads and writes. -/
structure Page where
  /-- The children of the element with id `privateMetricsCards`, in document order, each the
  HTML text it was inserted from; `none` when the document has no such element. -/
  privateMetricsCards : Option (List String)
  /-- The rest of the document, which only the collaborators touch. -/
  document : List String
  /-- The calls of `console.error` so far: the message and the error logged with it. -/
  console : List (String × JsError)
  deriving DecidableEq, Repr

/-- Lines 10 to 42, the body of the `try` block. The only statement with an effect is the
last one; `document.getElementById` returns `null` when the element is missing and the call of
`insertAdjacentHTML` on it throws a `TypeError`. -/
def fetchReuseMetricsTry (response : FetchOutcome (List MetricRecord)) (p : Page) :
    Page × Completion :=
  match response with
  | .networkError => (p, .throw .networkError)
  | .malformed => (p, .throw .syntaxError)
  | .json metrics =>
    match p.privateMetricsCards with
    | none => (p, .throw .typeError)
    | some children =>
      ({ p with privateMetricsCards := some (children ++ [reuseHtml metrics]) }, .normal)

/-- Lines 8 to 46: `fetchReuseMetrics`, the `try` block and its `catch`, which calls
`console.error('Error fetching reuse metrics:', error)`. -/
def fetchReuseMetrics (response : FetchOutcome (List MetricRecord)) (p : Page) :
    Page × Completion :=
  match fetchReuseMetricsTry response p with
  | (q, .normal) => (q, .normal)
  | (q, .throw e) =>
    ({ q with console := q.console ++ [("Error fetching reuse metrics:", e)] }, .normal)

/-! ## The `DOMContentLoaded` handler (lines 50 to 62) -/

/-- The five chart renderers, collaborators of the script. -/
inductive Chart
  | renderRepoGrowthChart
  | renderOrgReposChart
  | renderLangDistChart
  | renderStarsDistChart
  | renderActivityTrendChart
  deriving DecidableEq, Repr

/-- The calls the handler makes. -/
inductive Step
  /-- Line 51: `fetch('data/repositories.json').then(r => r.json())`. -/
  | fetchRepositories
  /-- Line 53. -/
  | fetchPrivateMetrics
  /-- Line 55. -/
  | fetchReuseMetrics
  /-- Lines 57 to 61. -/
  | render (c : Chart)
  deriving DecidableEq, Repr

/-- What an observer of the handler sees of a call. -/
inductive Event
  | started (s : Step)
  | completed (s : Step)
  | threw (s : Step)
  deriving DecidableEq, Repr

/-- Everything outside the script that a run of the handler depends on: the two resources
and the collaborators, whose bodies are not part of the script. `ρ` is the type of the
repository dataset. -/
structure Env (ρ : Type) where
  /-- The resource `data/repositories.json`. -/
  repositories : FetchOutcome ρ
  /-- The resource `data/reuse_metrics.json`. -/
  reuseMetrics : FetchOutcome (List MetricRecord)
  /-- The body of `fetchPrivateMetrics` (lines 3 to 5, elided in the source). -/
  fetchPrivateMetrics : Page → Page × Completion
  /-- The chart renderers. -/
  renderChart : Chart → ρ → Page → Page × Completion

/-- A finished run of the handler. -/
structure Run where
  /-- The page it leaves. -/
  page : Page
  /-- The calls it made, in order. -/
  trace : List Event
  /-- Whether the handler returned or its promise rejected. -/
  result : Completion
  deriving DecidableEq, Repr

/-- Lines 57 to 61 in the order of the source. -/
def chartCalls : List Chart :=
  [.renderRepoGrowthChart, .renderOrgReposChart, .renderLangDistChart,
   .renderStarsDistChart, .renderActivityTrendChart]

/-- A sequence of chart calls, each on `repoData`; a call that throws ends the handler. -/
def renderCharts {ρ : Type} (env : Env ρ) (repoData : ρ) :
    List Chart → Page → List Event → Run
  | [], p, tr => ⟨p, tr, .normal⟩
  | c :: cs, p, tr =>
    match env.renderChart c repoData p with
    | (q, .normal) =>
      renderCharts env repoData cs q (tr ++ [.started (.render c), .completed (.render c)])
    | (q, .throw e) => ⟨q, tr ++ [.started (.render c), .threw (.render c)], .throw e⟩

/-- Lines 50 to 62: the handler. No statement of it is inside a `try`, so the first call
that throws ends the run. -/
def onDOMContentLoaded {ρ : Type} (env : Env ρ) (p : Page) : Run :=
  match env.repositories with
  | .networkError =>
    ⟨p, [.started .fetchRepositories, .threw .fetchRepositories], .throw .networkError⟩
  | .malformed =>
    ⟨p, [.started .fetchRepositories, .threw .fetchRepositories], .throw .syntaxError⟩
  | .json repoData =>
    match env.fetchPrivateMetrics p with
    | (p1, .throw e) =>
      ⟨p1, [.started .fetchRepositories, .completed .fetchRepositories,
            .started .fetchPrivateMetrics, .threw .fetchPrivateMetrics], .throw e⟩
    | (p1, .normal) =>
      match fetchReuseMetrics env.reuseMetrics p1 with
      | (p2, .throw e) =>
        ⟨p2, [.started .fetchRepositories, .completed .fetchRepositories,
              .started .fetchPrivateMetrics, .completed .fetchPrivateMetrics,
              .started .fetchReuseMetrics, .threw .fetchReuseMetrics], .throw e⟩
      | (p2, .normal) =>
        renderCharts env repoData chartCalls p2
          [.started .fetchRepositories, .completed .fetchRepositories,
           .started .fetchPrivateMetrics, .completed .fetchPrivateMetrics,
           .started .fetchReuseMetrics, .completed .fetchReuseMetrics]


/-! ## The words of the specification -/

/-- The value of a count, an absent count being treated as 0. -/
def countOf (c : Option Int) : Int := c.getD 0

/-- The score of a record in the words of the specification: the sum of the three counts,
absent counts being 0. -/
def score (m : MetricRecord) : Int :=
  countOf m.forks_count + countOf m.clones_count + countOf m.downloads_count

/-- A record is reused when one of its three counts is greater than 0. -/
def Reused (m : MetricRecord) : Prop :=
  countOf m.forks_count > 0 ∨ countOf m.clones_count > 0 ∨ countOf m.downloads_count > 0

instance (m : MetricRecord) : Decidable (Reused m) := by
  unfold Reused; exact inferInstance

/-- A count that is absent or zero. -/
def absentOrZero (c : Option Int) : Bool :=
  match c with
  | none => true
  | some v => decide (v = 0)

/-- A record whose three counts are each absent or zero. -/
def allAbsentOrZero (m : MetricRecord) : Bool :=
  absentOrZero m.forks_count && absentOrZero m.clones_count && absentOrZero m.downloads_count

/-- The list `output` is a stable descending-by-score sort of `input`: a rearrangement of it,
in descending order of score, in which the records of any one score stand in the order they
have in `input`. -/
def StableDescSort (input output : List MetricRecord) : Prop :=
  output.Perm input ∧ output.Pairwise (fun a b => score a ≥ score b) ∧
    ∀ s : Int, output.filter (fun r => decide (score r = s))
      = input.filter (fun r => decide (score r = s))

/-- One line of the list in the words of the specification: `owner/name`, then
`: Forks: F, Clones: C, Downloads: D` with the raw counts as the page writes a number, an
absent count shown as 0; the markup around them is that of the source (`<li>`, and
`<strong>` around `owner/name`). -/
def specLine (r : MetricRecord) : String :=
  "<li><strong>" ++ (r.owner ++ "/" ++ r.name) ++ "</strong>"
    ++ (": Forks: " ++ numberToString (countOf r.forks_count)
        ++ ", Clones: " ++ numberToString (countOf r.clones_count)
        ++ ", Downloads: " ++ numberToString (countOf r.downloads_count))
    ++ "</li>"

/-- The integer `n` is the value of a finite double. -/
def IsDouble (n : Int) : Prop := Num.ofExact n = .finite n

instance (n : Int) : Decidable (IsDouble n) := by
  unfold IsDouble; exact inferInstance

/-- A record with non-negative integer counts whose sum is at most `2 ^ 53`, the range in
which the additions of the script are exact. -/
def SafeRecord (m : MetricRecord) : Prop :=
  0 ≤ countOf m.forks_count ∧ 0 ≤ countOf m.clones_count ∧ 0 ≤ countOf m.downloads_count
    ∧ score m ≤ 9007199254740992

instance (m : MetricRecord) : Decidable (SafeRecord m) := by
  unfold SafeRecord; exact inferInstance

/-- A list of records with non-negative integer counts whose sum, in each record, is at
most `2 ^ 53`. -/
def SafeCounts (metrics : List MetricRecord) : Prop :=
  ∀ m ∈ metrics, SafeRecord m

instance (metrics : List MetricRecord) : Decidable (SafeCounts metrics) := by
  unfold SafeCounts; exact inferInstance

/-- The records `a` and `b` compare equal: the comparator is neither positive nor negative
on them. -/
def tied (cmp : MetricRecord → MetricRecord → Num) (a b : MetricRecord) : Bool :=
  !(cmp a b).isPos && !(cmp a b).isNeg

/-- What ECMAScript 2019 requires of the result `output` of `sort(cmp)` on `input`: a
rearrangement of `input` in which no element stands before one that the comparator puts in
front of it, and in which the elements that compare equal to an element of `input` keep the
order they have in `input` (the sort is stable). -/
def StableSorted (cmp : MetricRecord → MetricRecord → Num)
    (input output : List MetricRecord) : Prop :=
  output.Perm input ∧ output.Pairwise (fun a b => (cmp a b).isPos = false) ∧
    ∀ x ∈ input, output.filter (tied cmp x) = input.filter (tied cmp x)

instance (cmp : MetricRecord → MetricRecord → Num) (input output : List MetricRecord) :
    Decidable (StableSorted cmp input output) := by
  unfold StableSorted; exact inferInstance

/-! ## Source expressions against the words of the specification -/

theorem gtZero_iff (c : Option Int) : gtZero c = true ↔ countOf c > 0 := by
  cases c <;> simp [gtZero, countOf]

theorem orZero_eq (c : Option Int) : orZero c = countOf c := by
  cases c with
  | none => rfl
  | some v =>
    simp only [orZero, countOf, Option.getD_some]
    split <;> omega

theorem isReused_iff (m : MetricRecord) : isReused m = true ↔ Reused m := by
  simp [isReused, Reused, gtZero_iff, or_assoc]

theorem absentOrZero_iff (c : Option Int) : absentOrZero c = true ↔ countOf c = 0 := by
  cases c <;> simp [absentOrZero, countOf]

theorem not_allAbsentOrZero_of_isReused (m : MetricRecord) (h : isReused m = true) :
    allAbsentOrZero m = false := by
  have hr := (isReused_iff m).mp h
  unfold Reused at hr
  cases hz : allAbsentOrZero m with
  | false => rfl
  | true =>
    simp only [allAbsentOrZero, Bool.and_eq_true, absentOrZero_iff] at hz
    omega

theorem reusedRepos_eq_filter (metrics : List MetricRecord) :
    reusedRepos metrics = metrics.filter (fun m => decide (Reused m)) := by
  unfold reusedRepos
  apply List.filter_congr
  intro m _
  by_cases h : Reused m
  · simp [h, (isReused_iff m).mpr h]
  · have : isReused m = false := by
      cases hb : isReused m with
      | false => rfl
      | true => exact absurd ((isReused_iff m).mp hb) h
    simp [h, this]

/-! ## Exact arithmetic in the safe range -/

theorem ofExact_of_natAbs_le (n : Int) (h : n.natAbs ≤ 9007199254740992) :
    Num.ofExact n = .finite n := by
  have hr : roundNearest n = n := by
    unfold roundNearest
    rw [if_pos h]
  unfold Num.ofExact
  rw [hr]
  have hlt : n.natAbs < 2 ^ 1024 :=
    lt_of_le_of_lt h (by norm_num)
  rw [if_pos hlt]

theorem total_of_safe (m : MetricRecord) (h : SafeRecord m) : total m = .finite (score m) := by
  obtain ⟨hf, hc, hd, hs⟩ := h
  unfold score at hs
  unfold total score
  rw [orZero_eq, orZero_eq, orZero_eq]
  show Num.add (Num.ofExact _) _ = _
  rw [ofExact_of_natAbs_le _ (by omega)]
  show Num.ofExact _ = _
  rw [ofExact_of_natAbs_le _ (by omega)]

theorem compareFn_of_safe (a b : MetricRecord) (ha : SafeRecord a) (hb : SafeRecord b) :
    compareFn a b = .finite (score b - score a) := by
  unfold compareFn
  rw [total_of_safe a ha, total_of_safe b hb]
  show Num.ofExact _ = _
  have h1 : 0 ≤ score a := by unfold score; have := ha.1; have := ha.2.1; have := ha.2.2.1; omega
  have h2 : 0 ≤ score b := by unfold score; have := hb.1; have := hb.2.1; have := hb.2.2.1; omega
  have h3 := ha.2.2.2
  have h4 := hb.2.2.2
  rw [ofExact_of_natAbs_le _ (by omega)]

theorem isPos_compareFn_of_safe (a b : MetricRecord) (ha : SafeRecord a) (hb : SafeRecord b) :
    (compareFn a b).isPos = true ↔ score a < score b := by
  rw [compareFn_of_safe a b ha hb]
  simp [Num.isPos]

theorem tied_compareFn_of_safe (a b : MetricRecord) (ha : SafeRecord a) (hb : SafeRecord b) :
    tied compareFn a b = true ↔ score b = score a := by
  unfold tied
  rw [compareFn_of_safe a b ha hb]
  simp only [Num.isPos, Num.isNeg, Bool.and_eq_true, Bool.not_eq_true', decide_eq_false_iff_not]
  omega

/-! ## Lemmas on the sort -/

theorem insertSorted_perm {α : Type} (cmp : α → α → Num) (x : α) (l : List α) :
    (insertSorted cmp x l).Perm (x :: l) := by
  induction l with
  | nil => exact List.Perm.refl _
  | cons y ys ih =>
    unfold insertSorted
    split
    · exact (List.Perm.cons y ih).trans (List.Perm.swap x y ys)
    · exact List.Perm.refl _

theorem jsSort_perm {α : Type} (cmp : α → α → Num) (l : List α) :
    (jsSort cmp l).Perm l := by
  induction l with
  | nil => exact List.Perm.refl _
  | cons x xs ih =>
    exact (insertSorted_perm cmp x (jsSort cmp xs)).trans (List.Perm.cons x ih)

theorem insertSorted_desc (x : MetricRecord) (l : List MetricRecord)
    (hx : SafeRecord x) (hl : ∀ y ∈ l, SafeRecord y)
    (h : l.Pairwise (fun a b => score a ≥ score b)) :
    (insertSorted compareFn x l).Pairwise (fun a b => score a ≥ score b) := by
  induction l with
  | nil => simp [insertSorted]
  | cons y ys ih =>
    have hy := List.pairwise_cons.mp h
    have hsy : SafeRecord y := hl y (List.mem_cons_self y ys)
    have hys : ∀ z ∈ ys, SafeRecord z := fun z hz => hl z (List.mem_cons_of_mem y hz)
    unfold insertSorted
    split
    · rename_i hc
      have hxy : score x < score y := (isPos_compareFn_of_safe x y hx hsy).mp hc
      refine List.pairwise_cons.mpr ⟨?_, ih hys hy.2⟩
      intro b hb
      rcases List.mem_cons.mp ((insertSorted_perm compareFn x ys).subset hb) with rfl | hb
      · exact le_of_lt hxy
      · exact hy.1 b hb
    · rename_i hc
      have hxy : score y ≤ score x := by
        have := mt (isPos_compareFn_of_safe x y hx hsy).mpr hc
        omega
      refine List.pairwise_cons.mpr ⟨?_, h⟩
      intro b hb
      rcases List.mem_cons.mp hb with rfl | hb
      · exact hxy
      · exact (hy.1 b hb).trans hxy

theorem jsSort_desc (l : List MetricRecord) (hl : ∀ y ∈ l, SafeRecord y) :
    (jsSort compareFn l).Pairwise (fun a b => score a ≥ score b) := by
  induction l with
  | nil => exact List.Pairwise.nil
  | cons x xs ih =>
    have hxs : ∀ z ∈ xs, SafeRecord z := fun z hz => hl z (List.mem_cons_of_mem x hz)
    exact insertSorted_desc x _ (hl x (List.mem_cons_self x xs))
      (fun y hy => hxs y ((jsSort_perm compareFn xs).subset hy)) (ih hxs)

theorem insertSorted_filter (s : Int) (x : MetricRecord) (l : List MetricRecord)
    (hx : SafeRecord x) (hl : ∀ y ∈ l, SafeRecord y) :
    (insertSorted compareFn x l).filter (fun r => decide (score r = s))
      = (x :: l).filter (fun r => decide (score r = s)) := by
  induction l with
  | nil => rfl
  | cons y ys ih =>
    have hsy : SafeRecord y := hl y (List.mem_cons_self y ys)
    have hys : ∀ z ∈ ys, SafeRecord z := fun z hz => hl z (List.mem_cons_of_mem y hz)
    unfold insertSorted
    split
    · rename_i hc
      have hxy : score x < score y := (isPos_compareFn_of_safe x y hx hsy).mp hc
      rw [List.filter_cons, ih hys]
      by_cases hxs : score x = s
      · have hy : ¬ score y = s := by omega
        simp [List.filter_cons, hxs, hy]
      · simp [List.filter_cons, hxs]
    · rfl

theorem jsSort_filter (s : Int) (l : List MetricRecord) (hl : ∀ y ∈ l, SafeRecord y) :
    (jsSort compareFn l).filter (fun r => decide (score r = s))
      = l.filter (fun r => decide (score r = s)) := by
  induction l with
  | nil => rfl
  | cons x xs ih =>
    have hxs : ∀ z ∈ xs, SafeRecord z := fun z hz => hl z (List.mem_cons_of_mem x hz)
    show (insertSorted compareFn x (jsSort compareFn xs)).filter _ = _
    rw [insertSorted_filter s x _ (hl x (List.mem_cons_self x xs))
      (fun y hy => hxs y ((jsSort_perm compareFn xs).subset hy)),
      List.filter_cons, List.filter_cons, ih hxs]

theorem jsSort_stableDescSort (l : List MetricRecord) (hl : ∀ y ∈ l, SafeRecord y) :
    StableDescSort l (jsSort compareFn l) :=
  ⟨jsSort_perm _ _, jsSort_desc l hl, fun s => jsSort_filter s l hl⟩

theorem safe_of_mem_filter (metrics : List MetricRecord) (h : SafeCounts metrics) :
    ∀ y ∈ metrics.filter (fun m => decide (Reused m)), SafeRecord y :=
  fun y hy => h y (List.mem_filter.mp hy).1

theorem topRepos_eq (metrics : List MetricRecord) :
    topRepos metrics
      = (jsSort compareFn (metrics.filter (fun m => decide (Reused m)))).take 3 := by
  unfold topRepos topReposWith
  rw [reusedRepos_eq_filter]

theorem diff_append_left (l₁ l₂ : List MetricRecord) : (l₁ ++ l₂).diff l₁ = l₂ := by
  induction l₁ with
  | nil => simp
  | cons a t ih => simp [List.diff_cons, ih]

theorem diff_take_perm (l sorted : List MetricRecord) (h : sorted.Perm l) :
    (l.diff (sorted.take 3)).Perm (sorted.drop 3) := by
  have h₁ := List.Perm.diff_right (sorted.take 3) h
  have h₂ := diff_append_left (sorted.take 3) (sorted.drop 3)
  rw [List.take_append_drop] at h₂
  rw [h₂] at h₁
  exact h₁.symm

theorem totalReused_eq_countP (metrics : List MetricRecord) :
    totalReused metrics = metrics.countP (fun m => decide (Reused m)) := by
  unfold totalReused
  rw [reusedRepos_eq_filter, List.countP_eq_length_filter]

theorem length_topRepos (metrics : List MetricRecord) :
    (topRepos metrics).length = min 3 (totalReused metrics) := by
  unfold topRepos topReposWith totalReused
  rw [List.length_take, (jsSort_perm compareFn (reusedRepos metrics)).length_eq]

theorem stableDescSort_unique (input : List MetricRecord) :
    ∀ out₁ out₂ : List MetricRecord, StableDescSort input out₁ → StableDescSort input out₂ →
      out₁ = out₂ := by
  have main : ∀ l₁ l₂ : List MetricRecord,
      l₁.Pairwise (fun a b => score a ≥ score b) →
      l₂.Pairwise (fun a b => score a ≥ score b) →
      (∀ s : Int, l₁.filter (fun r => decide (score r = s))
        = l₂.filter (fun r => decide (score r = s))) → l₁ = l₂ := by
    intro l₁
    induction l₁ with
    | nil =>
      intro l₂ _ _ hf
      cases l₂ with
      | nil => rfl
      | cons y t =>
        have := hf (score y)
        simp [List.filter_cons] at this
    | cons x t₁ ih =>
      intro l₂ h₁ h₂ hf
      cases l₂ with
      | nil =>
        have := hf (score x)
        simp [List.filter_cons] at this
      | cons y t₂ =>
        have hx1 := List.pairwise_cons.mp h₁
        have hy2 := List.pairwise_cons.mp h₂
        have hxmem : x ∈ (y :: t₂) := by
          have : x ∈ (y :: t₂).filter (fun r => decide (score r = score x)) := by
            rw [← hf (score x)]; simp [List.filter_cons]
          exact (List.mem_filter.mp this).1
        have hymem : y ∈ (x :: t₁) := by
          have : y ∈ (x :: t₁).filter (fun r => decide (score r = score y)) := by
            rw [hf (score y)]; simp [List.filter_cons]
          exact (List.mem_filter.mp this).1
        have hyx : score y ≥ score x := by
          rcases List.mem_cons.mp hxmem with rfl | hm
          · exact le_refl _
          · exact hy2.1 x hm
        have hxy : score x ≥ score y := by
          rcases List.mem_cons.mp hymem with rfl | hm
          · exact le_refl _
          · exact hx1.1 y hm
        have hsc : score y = score x := by omega
        have hhead := hf (score x)
        simp only [List.filter_cons, hsc, decide_True, if_true] at hhead
        have hxeq : x = y := (List.cons.inj hhead).1
        subst hxeq
        congr 1
        apply ih t₂ hx1.2 hy2.2
        intro s
        have hs := hf s
        by_cases hxs : score x = s
        · simp only [List.filter_cons, hxs, decide_True, if_true] at hs
          exact (List.cons.inj hs).2
        · simpa [List.filter_cons, hxs] using hs
  intro out₁ out₂ h₁ h₂
  exact main out₁ out₂ h₁.2.1 h₂.2.1 (fun s => (h₁.2.2 s).trans (h₂.2.2 s).symm)

/-- A result that meets the requirement of ECMAScript 2019 on records in the safe range is
the stable descending-by-score sort. -/
theorem stableDescSort_of_stableSorted (l out : List MetricRecord)
    (hl : ∀ y ∈ l, SafeRecord y) (h : StableSorted compareFn l out) :
    StableDescSort l out := by
  obtain ⟨hperm, hpair, hstab⟩ := h
  have hout : ∀ y ∈ out, SafeRecord y := fun y hy => hl y (hperm.subset hy)
  refine ⟨hperm, ?_, ?_⟩
  · refine List.Pairwise.imp_of_mem ?_ hpair
    intro a b ha hb hab
    have := mt (isPos_compareFn_of_safe a b (hout a ha) (hout b hb)).mpr (by simp [hab])
    omega
  · intro s
    by_cases hex : ∃ x ∈ l, score x = s
    · obtain ⟨x, hx, hxs⟩ := hex
      have e₁ : out.filter (fun r => decide (score r = s)) = out.filter (tied compareFn x) := by
        apply List.filter_congr
        intro y hy
        have := tied_compareFn_of_safe x y (hl x hx) (hout y hy)
        rw [hxs] at this
        by_cases hys : score y = s
        · simp [hys, this.mpr hys]
        · have ht : tied compareFn x y = false := by
            cases hb : tied compareFn x y with
            | false => rfl
            | true => exact absurd (this.mp hb) hys
          simp [hys, ht]
      have e₂ : l.filter (fun r => decide (score r = s)) = l.filter (tied compareFn x) := by
        apply List.filter_congr
        intro y hy
        have := tied_compareFn_of_safe x y (hl x hx) (hl y hy)
        rw [hxs] at this
        by_cases hys : score y = s
        · simp [hys, this.mpr hys]
        · have ht : tied compareFn x y = false := by
            cases hb : tied compareFn x y with
            | false => rfl
            | true => exact absurd (this.mp hb) hys
          simp [hys, ht]
      rw [e₁, e₂, hstab x hx]
    · have hn₁ : l.filter (fun r => decide (score r = s)) = [] := by
        apply List.filter_eq_nil_iff.mpr
        intro y hy hys
        exact hex ⟨y, hy, by simpa using hys⟩
      have hn₂ : out.filter (fun r => decide (score r = s)) = [] := by
        apply List.filter_eq_nil_iff.mpr
        intro y hy hys
        exact hex ⟨y, hperm.subset hy, by simpa using hys⟩
      rw [hn₁, hn₂]

/-! ## Claims -/

/-- C1: for every finite list of metric records, `totalReused` is the number of records for
which `forks_count > 0` or `clones_count > 0` or `downloads_count > 0`, an absent count being
0. It counts all of them, not only the top three: a list of `n` copies of a reused record
gives `n`; the list of scenario 2 gives 2 and the empty list gives 0. -/
theorem totalReused_counts_reused (metrics : List MetricRecord) :
    totalReused metrics = metrics.countP (fun m => decide (Reused m))
    ∧ (∀ n : Nat, totalReused (List.replicate n ⟨"a", "r1", some 5, none, none⟩) = n)
    ∧ totalReused [⟨"a", "r1", some 5, none, none⟩, ⟨"b", "r2", none, some 2, none⟩,
        ⟨"c", "r3", none, none, none⟩] = 2
    ∧ totalReused [] = 0 := by
  refine ⟨totalReused_eq_countP metrics, ?_, by decide, by decide⟩
  intro n
  unfold totalReused reusedRepos
  rw [List.filter_replicate]
  simp [isReused, gtZero]

/-- C3: for every list of metric records the length of `topRepos` is `min 3 totalReused`. -/
theorem topRepos_length_eq_min (metrics : List MetricRecord) :
    (topRepos metrics).length = min 3 (totalReused metrics) :=
  length_topRepos metrics

/-- C4, counterexample: two records whose counts are non-negative integer doubles. The
script adds `2 ^ 55 + 3 + 3` to `2 ^ 55` and `2 ^ 55 + 5` to `2 ^ 55 + 8`, so the comparator is
positive and the second record is placed first whatever the engine; its score `2 ^ 55 + 5` is
less than the score `2 ^ 55 + 6` of the record after it. -/
theorem topRepos_descending_counterexample :
    IsDouble 36028797018963968 ∧ IsDouble 3 ∧ IsDouble 5
    ∧ (compareFn ⟨"a", "r1", some 36028797018963968, some 3, some 3⟩ ⟨"b", "r2", some 36028797018963968, some 5, none⟩).isPos = true
    ∧ topRepos [⟨"a", "r1", some 36028797018963968, some 3, some 3⟩, ⟨"b", "r2", some 36028797018963968, some 5, none⟩] = [⟨"b", "r2", some 36028797018963968, some 5, none⟩, ⟨"a", "r1", some 36028797018963968, some 3, some 3⟩]
    ∧ ¬ (∀ (i j : Nat) (hij : i < j) (hj : j < (topRepos [⟨"a", "r1", some 36028797018963968, some 3, some 3⟩, ⟨"b", "r2", some 36028797018963968, some 5, none⟩]).length),
          score ((topRepos [⟨"a", "r1", some 36028797018963968, some 3, some 3⟩, ⟨"b", "r2", some 36028797018963968, some 5, none⟩]).get ⟨i, Nat.lt_trans hij hj⟩)
            ≥ score ((topRepos [⟨"a", "r1", some 36028797018963968, some 3, some 3⟩, ⟨"b", "r2", some 36028797018963968, some 5, none⟩]).get ⟨j, hj⟩)) := by
  refine ⟨by decide, by decide, by decide, by decide, by decide, ?_⟩
  intro h
  exact absurd (h 0 1 (by decide) (by decide)) (by decide)

/-- C4, amended: for every list of metric records with non-negative integer counts whose sum
is at most `2 ^ 53` in each record, and every pair of positions `i < j` of `topRepos`, the
score of the entry at `i` is greater than or equal to the score of the entry at `j`. -/
theorem topRepos_descending_of_safe (metrics : List MetricRecord) (hsafe : SafeCounts metrics)
    (i j : Nat) (hij : i < j) (hj : j < (topRepos metrics).length) :
    score ((topRepos metrics).get ⟨i, Nat.lt_trans hij hj⟩)
      ≥ score ((topRepos metrics).get ⟨j, hj⟩) := by
  have hs : (topRepos metrics).Pairwise (fun a b => score a ≥ score b) := by
    rw [topRepos_eq]
    exact (jsSort_desc _ (safe_of_mem_filter metrics hsafe)).sublist (List.take_sublist _ _)
  exact List.pairwise_iff_get.mp hs ⟨i, Nat.lt_trans hij hj⟩ ⟨j, hj⟩ hij

/-- Witness of C4 on four reused records, at the positions 0 and 2. -/
theorem topRepos_descending_of_safe_witness :
    SafeCounts [⟨"a", "r1", some 1, none, none⟩, ⟨"b", "r2", none, some 7, none⟩,
        ⟨"c", "r3", some 2, some 2, none⟩, ⟨"d", "r4", none, none, some 9⟩]
    ∧ score ((topRepos [⟨"a", "r1", some 1, none, none⟩, ⟨"b", "r2", none, some 7, none⟩,
        ⟨"c", "r3", some 2, some 2, none⟩, ⟨"d", "r4", none, none, some 9⟩]).get ⟨0, by decide⟩)
      ≥ score ((topRepos [⟨"a", "r1", some 1, none, none⟩, ⟨"b", "r2", none, some 7, none⟩,
        ⟨"c", "r3", some 2, some 2, none⟩, ⟨"d", "r4", none, none, some 9⟩]).get ⟨2, by decide⟩) :=
  ⟨by decide, topRepos_descending_of_safe _ (by decide) 0 2 (by decide) (by decide)⟩

/-- C2, counterexample: four reused records whose counts are non-negative integer doubles.
The script computes `2 ^ 55 + 8` for each of the first three (score `2 ^ 55 + 5`) and `2 ^ 55`
for the fourth (score `2 ^ 55 + 6`), so the comparator is positive on each of them against
the fourth and the fourth, of the highest score, is the one left out. -/
theorem topRepos_highest_counterexample :
    IsDouble 36028797018963968 ∧ IsDouble 3 ∧ IsDouble 5
    ∧ (compareFn ⟨"e", "r5", some 36028797018963968, some 3, some 3⟩ ⟨"b", "r2", some 36028797018963968, some 5, none⟩).isPos = true
    ∧ topRepos [⟨"b", "r2", some 36028797018963968, some 5, none⟩, ⟨"c", "r3", some 36028797018963968, some 5, none⟩, ⟨"d", "r4", some 36028797018963968, some 5, none⟩, ⟨"e", "r5", some 36028797018963968, some 3, some 3⟩] = [⟨"b", "r2", some 36028797018963968, some 5, none⟩, ⟨"c", "r3", some 36028797018963968, some 5, none⟩, ⟨"d", "r4", some 36028797018963968, some 5, none⟩]
    ∧ ¬ (∀ x ∈ ([⟨"b", "r2", some 36028797018963968, some 5, none⟩, ⟨"c", "r3", some 36028797018963968, some 5, none⟩, ⟨"d", "r4", some 36028797018963968, some 5, none⟩, ⟨"e", "r5", some 36028797018963968, some 3, some 3⟩].filter (fun m => decide (Reused m))).diff
            (topRepos [⟨"b", "r2", some 36028797018963968, some 5, none⟩, ⟨"c", "r3", some 36028797018963968, some 5, none⟩, ⟨"d", "r4", some 36028797018963968, some 5, none⟩, ⟨"e", "r5", some 36028797018963968, some 3, some 3⟩]),
          ∀ y ∈ topRepos [⟨"b", "r2", some 36028797018963968, some 5, none⟩, ⟨"c", "r3", some 36028797018963968, some 5, none⟩, ⟨"d", "r4", some 36028797018963968, some 5, none⟩, ⟨"e", "r5", some 36028797018963968, some 3, some 3⟩], score x ≤ score y) := by
  refine ⟨by decide, by decide, by decide, by decide, by decide, by decide⟩

/-- C2, amended: for every list of metric records with non-negative integer counts whose sum
is at most `2 ^ 53` in each record, `topRepos` holds the highest-scoring reused records. It
is a sub-multiset of the records of the input that are reused; every reused record of the
input left out of it (the multiset difference) has a score less than or equal to the score
of every entry; and when the reused records are at least three (in particular five) with
pairwise distinct scores, `topRepos` has exactly three entries and every reused record
outside it scores strictly less than each of them. -/
theorem topRepos_highest_of_safe (metrics : List MetricRecord) (hsafe : SafeCounts metrics) :
    (topRepos metrics).Subperm (metrics.filter (fun m => decide (Reused m)))
    ∧ (∀ x ∈ (metrics.filter (fun m => decide (Reused m))).diff (topRepos metrics),
        ∀ y ∈ topRepos metrics, score x ≤ score y)
    ∧ (3 ≤ (metrics.filter (fun m => decide (Reused m))).length →
        ((metrics.filter (fun m => decide (Reused m))).map score).Nodup →
        (topRepos metrics).length = 3
        ∧ ∀ x ∈ metrics.filter (fun m => decide (Reused m)), x ∉ topRepos metrics →
            ∀ y ∈ topRepos metrics, score x < score y) := by
  have hst := jsSort_stableDescSort _ (safe_of_mem_filter metrics hsafe)
  have hsorted : (jsSort compareFn (metrics.filter (fun m => decide (Reused m)))).Sorted
      (fun a b => score a ≥ score b) := hst.2.1
  rw [topRepos_eq]
  refine ⟨?_, ?_, ?_⟩
  · exact (List.take_sublist _ _).subperm.trans hst.1.subperm
  · intro x hx y hy
    have hx' := (diff_take_perm _ _ hst.1).subset hx
    exact hsorted.rel_of_mem_take_of_mem_drop hy hx'
  · intro hlen hnd
    refine ⟨?_, ?_⟩
    · rw [List.length_take, hst.1.length_eq]
      omega
    · intro x hx hxn y hy
      have hxs : x ∈ jsSort compareFn (metrics.filter (fun m => decide (Reused m))) :=
        hst.1.symm.subset hx
      rw [← List.take_append_drop 3
        (jsSort compareFn (metrics.filter (fun m => decide (Reused m))))] at hxs
      have hxd : x ∈ (jsSort compareFn (metrics.filter (fun m => decide (Reused m)))).drop 3 := by
        rcases List.mem_append.mp hxs with h | h
        · exact absurd h hxn
        · exact h
      have hle : score y ≥ score x := hsorted.rel_of_mem_take_of_mem_drop hy hxd
      have hnd' : ((jsSort compareFn (metrics.filter (fun m => decide (Reused m)))).map
          score).Nodup := (hst.1.map score).nodup_iff.mpr hnd
      rw [← List.take_append_drop 3
        (jsSort compareFn (metrics.filter (fun m => decide (Reused m)))), List.map_append]
        at hnd'
      have hdis := (List.nodup_append.mp hnd').2.2
      have hne : score y ≠ score x := by
        intro heq
        exact hdis (List.mem_map_of_mem score hy) (heq ▸ List.mem_map_of_mem score hxd)
      omega

/-- Witness of C2 on five reused records of distinct scores (1, 7, 4, 9, 3): the top three
are the records of scores 9, 7 and 4. -/
theorem topRepos_highest_of_safe_witness :
    SafeCounts [⟨"a", "r1", some 1, none, none⟩, ⟨"b", "r2", none, some 7, none⟩,
        ⟨"c", "r3", some 2, some 2, none⟩, ⟨"d", "r4", none, none, some 9⟩,
        ⟨"e", "r5", some 3, none, none⟩]
    ∧ 3 ≤ ([⟨"a", "r1", some 1, none, none⟩, ⟨"b", "r2", none, some 7, none⟩,
        ⟨"c", "r3", some 2, some 2, none⟩, ⟨"d", "r4", none, none, some 9⟩,
        ⟨"e", "r5", some 3, none, none⟩].filter (fun m => decide (Reused m))).length
    ∧ (([⟨"a", "r1", some 1, none, none⟩, ⟨"b", "r2", none, some 7, none⟩,
        ⟨"c", "r3", some 2, some 2, none⟩, ⟨"d", "r4", none, none, some 9⟩,
        ⟨"e", "r5", some 3, none, none⟩].filter (fun m => decide (Reused m))).map score).Nodup
    ∧ (topRepos [⟨"a", "r1", some 1, none, none⟩, ⟨"b", "r2", none, some 7, none⟩,
        ⟨"c", "r3", some 2, some 2, none⟩, ⟨"d", "r4", none, none, some 9⟩,
        ⟨"e", "r5", some 3, none, none⟩]).length = 3
    ∧ topRepos [⟨"a", "r1", some 1, none, none⟩, ⟨"b", "r2", none, some 7, none⟩,
        ⟨"c", "r3", some 2, some 2, none⟩, ⟨"d", "r4", none, none, some 9⟩,
        ⟨"e", "r5", some 3, none, none⟩]
      = [⟨"d", "r4", none, none, some 9⟩, ⟨"b", "r2", none, some 7, none⟩,
         ⟨"c", "r3", some 2, some 2, none⟩] :=
  ⟨by decide, by decide, by decide,
   ((topRepos_highest_of_safe _ (by decide)).2.2 (by decide) (by decide)).1, by decide⟩

/-- C5: a record whose three counts are each absent or zero is never counted in `totalReused`
and never appears in `topRepos`: two inputs that differ only by such records (adding or
removing them anywhere) have the same `totalReused` and the same `topRepos`, and neither the
reused records nor `topRepos` contain such a record. -/
theorem allAbsentOrZero_ignored (metrics metrics' : List MetricRecord)
    (h : metrics.filter (fun m => !allAbsentOrZero m)
       = metrics'.filter (fun m => !allAbsentOrZero m)) :
    totalReused metrics = totalReused metrics'
    ∧ topRepos metrics = topRepos metrics'
    ∧ (∀ m ∈ reusedRepos metrics, allAbsentOrZero m = false)
    ∧ (∀ m ∈ topRepos metrics, allAbsentOrZero m = false) := by
  have key : ∀ l : List MetricRecord,
      reusedRepos l = reusedRepos (l.filter (fun m => !allAbsentOrZero m)) := by
    intro l
    unfold reusedRepos
    rw [List.filter_filter]
    apply List.filter_congr
    intro m _
    cases hm : isReused m with
    | false => rfl
    | true => simp [not_allAbsentOrZero_of_isReused m hm]
  have hre : reusedRepos metrics = reusedRepos metrics' := by
    rw [key metrics, key metrics', h]
  have hmem : ∀ m ∈ reusedRepos metrics, allAbsentOrZero m = false := by
    intro m hm
    exact not_allAbsentOrZero_of_isReused m (List.mem_filter.mp hm).2
  refine ⟨?_, ?_, hmem, ?_⟩
  · unfold totalReused; rw [hre]
  · unfold topRepos topReposWith; rw [hre]
  · intro m hm
    unfold topRepos topReposWith at hm
    exact hmem m ((jsSort_perm compareFn _).subset ((List.take_sublist _ _).subset hm))

/-- Witness of C5: two all-zero records are added to, and one removed from, the input of
scenario 2. -/
theorem allAbsentOrZero_ignored_witness :
    totalReused [⟨"a", "r1", some 5, none, none⟩, ⟨"b", "r2", none, some 2, none⟩,
        ⟨"c", "r3", none, none, none⟩]
      = totalReused [⟨"z", "r0", some 0, none, some 0⟩, ⟨"a", "r1", some 5, none, none⟩,
        ⟨"y", "r9", none, none, none⟩, ⟨"b", "r2", none, some 2, none⟩]
    ∧ topRepos [⟨"a", "r1", some 5, none, none⟩, ⟨"b", "r2", none, some 2, none⟩,
        ⟨"c", "r3", none, none, none⟩]
      = topRepos [⟨"z", "r0", some 0, none, some 0⟩, ⟨"a", "r1", some 5, none, none⟩,
        ⟨"y", "r9", none, none, none⟩, ⟨"b", "r2", none, some 2, none⟩] :=
  have h := allAbsentOrZero_ignored
    [⟨"a", "r1", some 5, none, none⟩, ⟨"b", "r2", none, some 2, none⟩,
      ⟨"c", "r3", none, none, none⟩]
    [⟨"z", "r0", some 0, none, some 0⟩, ⟨"a", "r1", some 5, none, none⟩,
      ⟨"y", "r9", none, none, none⟩, ⟨"b", "r2", none, some 2, none⟩] (by decide)
  ⟨h.1, h.2.1⟩

/-- C10, counterexample: the two records of the counterexample of C4. The stable
descending-by-score sort of the reused records leaves them as they are (scores `2 ^ 55 + 6`
and `2 ^ 55 + 5`), and `topRepos` is the other order: the comparator, on the sums as the
script computes them, is positive, so every engine moves the second record to the front. -/
theorem topRepos_stable_counterexample :
    IsDouble 36028797018963968 ∧ IsDouble 3 ∧ IsDouble 5
    ∧ (compareFn ⟨"a", "r1", some 36028797018963968, some 3, some 3⟩ ⟨"b", "r2", some 36028797018963968, some 5, none⟩).isPos = true
    ∧ topRepos [⟨"a", "r1", some 36028797018963968, some 3, some 3⟩, ⟨"b", "r2", some 36028797018963968, some 5, none⟩] = [⟨"b", "r2", some 36028797018963968, some 5, none⟩, ⟨"a", "r1", some 36028797018963968, some 3, some 3⟩]
    ∧ ¬ (∃ sorted, StableDescSort ([⟨"a", "r1", some 36028797018963968, some 3, some 3⟩, ⟨"b", "r2", some 36028797018963968, some 5, none⟩].filter (fun m => decide (Reused m))) sorted
          ∧ topRepos [⟨"a", "r1", some 36028797018963968, some 3, some 3⟩, ⟨"b", "r2", some 36028797018963968, some 5, none⟩] = sorted.take 3) := by
  refine ⟨by decide, by decide, by decide, by decide, by decide, ?_⟩
  rintro ⟨sorted, hs, ht⟩
  have hid : StableDescSort ([⟨"a", "r1", some 36028797018963968, some 3, some 3⟩, ⟨"b", "r2", some 36028797018963968, some 5, none⟩].filter (fun m => decide (Reused m))) [⟨"a", "r1", some 36028797018963968, some 3, some 3⟩, ⟨"b", "r2", some 36028797018963968, some 5, none⟩] :=
    ⟨List.Perm.refl _, by decide, fun _ => rfl⟩
  rw [stableDescSort_unique _ _ _ hs hid] at ht
  exact absurd ht (by decide)

/-- C10, amended: on an engine whose sort is stable, as ECMAScript 2019 requires (the result
of `sort` on the reused records meets `StableSorted`), and for every list of metric records
with non-negative integer counts whose sum is at most `2 ^ 53` in each record, ties are broken
by input order. The top list is the first three elements of a stable descending-by-score
sort of the reused records of the input, and of every such sort (there is only one). Hence
for every score `s` its entries of score `s` are an initial segment of the reused records of
score `s` in input order: equal-score records keep their input order, and when only some of
them fit, the earlier ones in the input are kept. It is the `topRepos` of the stable
insertion sort. -/
theorem topReposWith_stable_of_safe
    (sort : (MetricRecord → MetricRecord → Num) → List MetricRecord → List MetricRecord)
    (metrics : List MetricRecord) (hsafe : SafeCounts metrics)
    (hsort : StableSorted compareFn (reusedRepos metrics) (sort compareFn (reusedRepos metrics))) :
    (∃ sorted, StableDescSort (metrics.filter (fun m => decide (Reused m))) sorted
        ∧ topReposWith sort metrics = sorted.take 3)
    ∧ (∀ sorted, StableDescSort (metrics.filter (fun m => decide (Reused m))) sorted →
        topReposWith sort metrics = sorted.take 3)
    ∧ (∀ s : Int, (topReposWith sort metrics).filter (fun r => decide (score r = s))
        <+: (metrics.filter (fun m => decide (Reused m))).filter
              (fun r => decide (score r = s)))
    ∧ topReposWith sort metrics = topRepos metrics := by
  have hl := safe_of_mem_filter metrics hsafe
  rw [reusedRepos_eq_filter] at hsort
  have hst := stableDescSort_of_stableSorted _ _ hl hsort
  have htop : topReposWith sort metrics
      = (sort compareFn (metrics.filter (fun m => decide (Reused m)))).take 3 := by
    unfold topReposWith
    rw [reusedRepos_eq_filter]
  refine ⟨⟨_, hst, htop⟩, ?_, ?_, ?_⟩
  · intro sorted hs
    rw [htop, stableDescSort_unique _ _ _ hst hs]
  · intro s
    rw [htop, ← hst.2.2 s]
    exact List.IsPrefix.filter _ ( List.take_prefix 3 _)
  · rw [htop, topRepos_eq, stableDescSort_unique _ _ _ hst (jsSort_stableDescSort _ hl)]

/-- Witness of C10: four reused records of the same score 5 and the stable insertion sort
as the sort of the engine; the sort leaves them in input order and the top list is the
first three of the input. -/
theorem topReposWith_stable_of_safe_witness :
    SafeCounts [⟨"a", "r1", some 5, none, none⟩, ⟨"b", "r2", none, some 5, none⟩,
        ⟨"c", "r3", some 2, some 3, none⟩, ⟨"d", "r4", none, none, some 5⟩]
    ∧ StableSorted compareFn (reusedRepos [⟨"a", "r1", some 5, none, none⟩, ⟨"b", "r2", none, some 5, none⟩,
        ⟨"c", "r3", some 2, some 3, none⟩, ⟨"d", "r4", none, none, some 5⟩]) (jsSort compareFn (reusedRepos [⟨"a", "r1", some 5, none, none⟩, ⟨"b", "r2", none, some 5, none⟩,
        ⟨"c", "r3", some 2, some 3, none⟩, ⟨"d", "r4", none, none, some 5⟩]))
    ∧ topReposWith jsSort [⟨"a", "r1", some 5, none, none⟩, ⟨"b", "r2", none, some 5, none⟩,
        ⟨"c", "r3", some 2, some 3, none⟩, ⟨"d", "r4", none, none, some 5⟩]
      = [⟨"a", "r1", some 5, none, none⟩, ⟨"b", "r2", none, some 5, none⟩,
        ⟨"c", "r3", some 2, some 3, none⟩] :=
  have hs : StableDescSort ([⟨"a", "r1", some 5, none, none⟩, ⟨"b", "r2", none, some 5, none⟩,
        ⟨"c", "r3", some 2, some 3, none⟩, ⟨"d", "r4", none, none, some 5⟩].filter (fun m => decide (Reused m))) [⟨"a", "r1", some 5, none, none⟩, ⟨"b", "r2", none, some 5, none⟩,
        ⟨"c", "r3", some 2, some 3, none⟩, ⟨"d", "r4", none, none, some 5⟩] :=
    ⟨List.Perm.refl _, by decide, fun _ => rfl⟩
  ⟨by decide, by decide,
   (topReposWith_stable_of_safe jsSort _ (by decide) (by decide)).2.1 _ hs⟩

theorem numberToString_of_natAbs_le (n : Int) (h : n.natAbs ≤ 9007199254740992) :
    numberToString n = toString n := by
  unfold numberToString natToString
  rw [if_pos h]
  cases n with
  | ofNat m => rfl
  | negSucc m =>
    rw [if_pos (Int.negSucc_lt_zero m)]
    rfl

theorem topLine_eq_specLine (r : MetricRecord) : topLine r = specLine r := by
  have hlit : "</strong>: Forks: " = "</strong>" ++ ": Forks: " := by decide
  unfold topLine specLine
  rw [hlit]
  simp only [orZero_eq, String.append_assoc]

theorem truthy_topHtml (metrics : List MetricRecord) :
    truthy (topHtml metrics) = !(topRepos metrics).isEmpty := by
  unfold truthy topHtml
  cases h : topRepos metrics with
  | nil => rfl
  | cons x t =>
    have hne : ("<ul class=\"list-unstyled\">" ++ String.join ((x :: t).map topLine) ++ "</ul>")
        ≠ "" := by
      intro he
      have hl := congrArg String.length he
      simp only [String.length_append] at hl
      have h0 : "<ul class=\"list-unstyled\">".length = 26 := by decide
      have h1 : "".length = 0 := by decide
      omega
    have hpos : (x :: t).length > 0 := Nat.succ_pos _
    rw [if_pos hpos, beq_eq_false_iff_ne.mpr hne]
    rfl

/-- C6: when the fetch of `data/reuse_metrics.json` fails, or its body is not well-formed
JSON, or the element with id `privateMetricsCards` is missing, `fetchReuseMetrics` completes
without raising to its caller, leaves the rendered content (the element and the rest of the
document) exactly as it was, and logs exactly one diagnostic. -/
theorem fetchReuseMetrics_failure (response : FetchOutcome (List MetricRecord)) (p : Page)
    (h : response = .networkError ∨ response = .malformed ∨ p.privateMetricsCards = none) :
    (fetchReuseMetrics response p).2 = .normal
    ∧ (fetchReuseMetrics response p).1.privateMetricsCards = p.privateMetricsCards
    ∧ (fetchReuseMetrics response p).1.document = p.document
    ∧ ∃ e : JsError, (fetchReuseMetrics response p).1.console
        = p.console ++ [("Error fetching reuse metrics:", e)] := by
  have key : ∃ e : JsError, fetchReuseMetricsTry response p = (p, .throw e) := by
    rcases h with h | h | h
    · exact ⟨.networkError, by rw [h]; rfl⟩
    · exact ⟨.syntaxError, by rw [h]; rfl⟩
    · cases response with
      | networkError => exact ⟨.networkError, rfl⟩
      | malformed => exact ⟨.syntaxError, rfl⟩
      | json metrics => exact ⟨.typeError, by simp [fetchReuseMetricsTry, h]⟩
  obtain ⟨e, he⟩ := key
  have hres : fetchReuseMetrics response p
      = ({ p with console := p.console ++ [("Error fetching reuse metrics:", e)] }, .normal) := by
    unfold fetchReuseMetrics
    rw [he]
  rw [hres]
  exact ⟨rfl, rfl, rfl, e, rfl⟩

/-- Witness of C6 at the three kinds of failure: a network error and a malformed body on a
page that already shows one card, and a well-formed body on a page without the element. -/
theorem fetchReuseMetrics_failure_witness :
    fetchReuseMetrics .networkError ⟨some ["<div>private</div>"], ["<canvas>"], []⟩
      = (⟨some ["<div>private</div>"], ["<canvas>"],
          [("Error fetching reuse metrics:", .networkError)]⟩, .normal)
    ∧ (fetchReuseMetrics .malformed ⟨some ["<div>private</div>"], ["<canvas>"], []⟩).2 = .normal
    ∧ (fetchReuseMetrics (.json [⟨"a", "r1", some 5, none, none⟩])
        ⟨none, ["<canvas>"], []⟩).1.console
      = [("Error fetching reuse metrics:", .typeError)] :=
  have h₂ := fetchReuseMetrics_failure .malformed
    ⟨some ["<div>private</div>"], ["<canvas>"], []⟩ (Or.inr (Or.inl rfl))
  ⟨by decide, h₂.1, by decide⟩

/-- C8: when the body is the list `metrics` and the element exists, `fetchReuseMetrics`
appends one block to the element. The block shows the number of reused records as its count
and, when `topRepos` is not empty, the section `Top Re-used:` with an unordered list of one
line per entry of `topRepos`, in the order of `topRepos` (at most 3 lines), each of the form
`owner/name: Forks: F, Clones: C, Downloads: D` with the raw counts, written as the page
writes a number (the decimal digits for every integer up to `2 ^ 53`), absent shown as 0.
When `topRepos` is empty the block is a fixed text that has no list and no `Top Re-used` in
it. -/
theorem fetchReuseMetrics_block (metrics : List MetricRecord) (p : Page)
    (children : List String) (hp : p.privateMetricsCards = some children) :
    ∃ block : String,
      fetchReuseMetrics (.json metrics) p
        = ({ p with privateMetricsCards := some (children ++ [block]) }, .normal)
      ∧ block = cardHead ++ toString (metrics.countP (fun m => decide (Reused m))) ++ cardMid
          ++ (if topRepos metrics = [] then ""
              else "<div class=\"mt-3\"><strong>Top Re-used:</strong>"
                ++ ("<ul class=\"list-unstyled\">"
                      ++ String.join ((topRepos metrics).map specLine) ++ "</ul>")
                ++ "</div>")
          ++ cardTail
      ∧ ((topRepos metrics).map specLine).length ≤ 3
      ∧ (∀ n : Int, n.natAbs ≤ 9007199254740992 → numberToString n = toString n)
      ∧ (topRepos metrics = [] →
          block = cardHead ++ "0" ++ cardMid ++ "" ++ cardTail
          ∧ ¬ ("<ul".toList <:+: block.toList)
          ∧ ¬ ("<li".toList <:+: block.toList)
          ∧ ¬ ("Top Re-used".toList <:+: block.toList)) := by
  have hcount : totalReused metrics = metrics.countP (fun m => decide (Reused m)) :=
    totalReused_eq_countP metrics
  have hblock : reuseHtml metrics
      = cardHead ++ toString (metrics.countP (fun m => decide (Reused m))) ++ cardMid
          ++ (if topRepos metrics = [] then ""
              else "<div class=\"mt-3\"><strong>Top Re-used:</strong>"
                ++ ("<ul class=\"list-unstyled\">"
                      ++ String.join ((topRepos metrics).map specLine) ++ "</ul>")
                ++ "</div>")
          ++ cardTail := by
    unfold reuseHtml
    rw [truthy_topHtml, hcount]
    cases ht : topRepos metrics with
    | nil => rfl
    | cons x t =>
      have hmap : (x :: t).map topLine = (x :: t).map specLine :=
        List.map_congr_left (fun r _ => topLine_eq_specLine r)
      simp [topHtml, ht, hmap]
  refine ⟨reuseHtml metrics, ?_, hblock, ?_, numberToString_of_natAbs_le, ?_⟩
  · simp [fetchReuseMetrics, fetchReuseMetricsTry, hp]
  · rw [List.length_map, length_topRepos]
    exact Nat.min_le_left _ _
  · intro hempty
    have hzero : metrics.countP (fun m => decide (Reused m)) = 0 := by
      have hl := length_topRepos metrics
      rw [hempty, hcount] at hl
      simp only [List.length_nil] at hl
      omega
    have hb : reuseHtml metrics = cardHead ++ "0" ++ cardMid ++ "" ++ cardTail := by
      rw [hblock, hzero, if_pos hempty]
      rfl
    rw [hb]
    refine ⟨rfl, ?_, ?_, ?_⟩ <;> decide

/-- Witness of C8 on the input of scenario 2 and a page whose element has one card. -/
theorem fetchReuseMetrics_block_witness :
    ∃ block : String,
      fetchReuseMetrics (.json [⟨"a", "r1", some 5, none, none⟩,
          ⟨"b", "r2", none, some 2, none⟩, ⟨"c", "r3", none, none, none⟩])
          ⟨some ["<div>private</div>"], [], []⟩
        = (⟨some (["<div>private</div>"] ++ [block]), [], []⟩, .normal)
      ∧ block = cardHead ++ "2" ++ cardMid
          ++ ("<div class=\"mt-3\"><strong>Top Re-used:</strong><ul class=\"list-unstyled\">"
            ++ "<li><strong>a/r1</strong>: Forks: 5, Clones: 0, Downloads: 0</li>"
            ++ "<li><strong>b/r2</strong>: Forks: 0, Clones: 2, Downloads: 0</li>"
            ++ "</ul></div>")
          ++ cardTail :=
  match fetchReuseMetrics_block [⟨"a", "r1", some 5, none, none⟩,
      ⟨"b", "r2", none, some 2, none⟩, ⟨"c", "r3", none, none, none⟩]
      ⟨some ["<div>private</div>"], [], []⟩ ["<div>private</div>"] rfl with
  | ⟨block, h₁, h₂, _⟩ => ⟨block, h₁, h₂.trans (by decide)⟩


theorem renderCharts_trace {ρ : Type} (env : Env ρ) (repoData : ρ) (cs : List Chart) :
    ∀ (p : Page) (tr : List Event), ∃ suffix : List Event,
      (renderCharts env repoData cs p tr).trace = tr ++ suffix
      ∧ ∀ e ∈ suffix, ∃ c : Chart,
          e = .started (.render c) ∨ e = .completed (.render c) ∨ e = .threw (.render c) := by
  induction cs with
  | nil =>
    intro p tr
    exact ⟨[], by simp [renderCharts], by simp⟩
  | cons c cs ih =>
    intro p tr
    unfold renderCharts
    rcases hx : env.renderChart c repoData p with ⟨q, r⟩
    cases r with
    | normal =>
      obtain ⟨suffix, hs, hall⟩ := ih q (tr ++ [.started (.render c), .completed (.render c)])
      refine ⟨[.started (.render c), .completed (.render c)] ++ suffix, ?_, ?_⟩
      · simp only [hs, List.append_assoc]
      · intro e he
        rcases List.mem_append.mp he with h | h
        · simp only [List.mem_cons, List.mem_singleton, List.not_mem_nil, or_false] at h
          rcases h with h | h
          · exact ⟨c, Or.inl h⟩
          · exact ⟨c, Or.inr (Or.inl h)⟩
        · exact hall e h
    | throw err =>
      refine ⟨[.started (.render c), .threw (.render c)], rfl, ?_⟩
      intro e he
      simp only [List.mem_cons, List.mem_singleton, List.not_mem_nil, or_false] at he
      rcases he with h | h
      · exact ⟨c, Or.inl h⟩
      · exact ⟨c, Or.inr (Or.inr h)⟩

/-- The shape of every trace of the handler: one of the runs that end before the charts, or the
six events up to the completion of `fetchReuseMetrics` followed by chart events only. -/
theorem onDOMContentLoaded_trace {ρ : Type} (env : Env ρ) (p : Page) :
    (onDOMContentLoaded env p).trace
        = [.started .fetchRepositories, .threw .fetchRepositories]
    ∨ (onDOMContentLoaded env p).trace
        = [.started .fetchRepositories, .completed .fetchRepositories,
           .started .fetchPrivateMetrics, .threw .fetchPrivateMetrics]
    ∨ ∃ suffix : List Event,
        (onDOMContentLoaded env p).trace
          = [.started .fetchRepositories, .completed .fetchRepositories,
             .started .fetchPrivateMetrics, .completed .fetchPrivateMetrics,
             .started .fetchReuseMetrics, .completed .fetchReuseMetrics] ++ suffix
        ∧ ∀ e ∈ suffix, ∃ c : Chart,
            e = .started (.render c) ∨ e = .completed (.render c) ∨ e = .threw (.render c) := by
  cases hrepo : env.repositories with
  | networkError => exact Or.inl (by simp only [onDOMContentLoaded, hrepo])
  | malformed => exact Or.inl (by simp only [onDOMContentLoaded, hrepo])
  | json repoData =>
    rcases hpriv : env.fetchPrivateMetrics p with ⟨p1, r1⟩
    cases r1 with
    | throw e => exact Or.inr (Or.inl (by simp only [onDOMContentLoaded, hrepo, hpriv]))
    | normal =>
      have hnormal : (fetchReuseMetrics env.reuseMetrics p1).2 = .normal := by
        unfold fetchReuseMetrics
        rcases fetchReuseMetricsTry env.reuseMetrics p1 with ⟨q, r⟩
        cases r <;> rfl
      rcases hreuse : fetchReuseMetrics env.reuseMetrics p1 with ⟨p2, r2⟩
      rw [hreuse] at hnormal
      simp only at hnormal
      subst hnormal
      refine Or.inr (Or.inr ?_)
      simp only [onDOMContentLoaded, hrepo, hpriv, hreuse]
      exact renderCharts_trace env repoData chartCalls p2 _

/-- C9: in every run of the handler, a chart renderer is started only after
`fetchReuseMetrics` has completed, and `fetchReuseMetrics` is started only after
`fetchPrivateMetrics` has completed: each such start in the trace of calls has the
completion at an earlier position. -/
theorem handler_order {ρ : Type} (env : Env ρ) (p : Page) :
    (∀ (i : Nat) (c : Chart),
        (onDOMContentLoaded env p).trace[i]? = some (.started (.render c)) →
        ∃ j, j < i ∧ (onDOMContentLoaded env p).trace[j]?
          = some (.completed .fetchReuseMetrics))
    ∧ (∀ i : Nat,
        (onDOMContentLoaded env p).trace[i]? = some (.started .fetchReuseMetrics) →
        ∃ j, j < i ∧ (onDOMContentLoaded env p).trace[j]?
          = some (.completed .fetchPrivateMetrics)) := by
  rcases onDOMContentLoaded_trace env p with h | h | ⟨suffix, h, hall⟩
  · rw [h]
    refine ⟨?_, ?_⟩
    · intro i c hi
      have := List.getElem?_mem hi
      simp at this
    · intro i hi
      have := List.getElem?_mem hi
      simp at this
  · rw [h]
    refine ⟨?_, ?_⟩
    · intro i c hi
      have := List.getElem?_mem hi
      simp at this
    · intro i hi
      have := List.getElem?_mem hi
      simp at this
  · rw [h]
    refine ⟨?_, ?_⟩
    · intro i c hi
      by_cases hlt : i < 6
      · rw [List.getElem?_append_left (by simpa using hlt)] at hi
        have := List.getElem?_mem hi
        simp at this
      · exact ⟨5, by omega, by simp⟩
    · intro i hi
      by_cases hlt : i < 6
      · rw [List.getElem?_append_left (by simpa using hlt)] at hi
        have h4 : i = 4 := by
          interval_cases i <;> simp at hi ⊢
        exact ⟨3, by omega, by simp⟩
      · rw [List.getElem?_append_right (by simpa using hlt)] at hi
        obtain ⟨c, hc⟩ := hall _ (List.getElem?_mem hi)
        simp at hc

/-- Witness of C9: a run in which both resources load and no collaborator throws. The
trace is the full sequence; the growth chart starts at position 6 and `fetchReuseMetrics` at
position 4, after the completions at positions 5 and 3. -/
theorem handler_order_witness :
    (onDOMContentLoaded (⟨.json 0, .json [], fun q => (q, .normal),
        fun _ _ q => (q, .normal)⟩ : Env Nat) ⟨some [], [], []⟩).trace
      = [.started .fetchRepositories, .completed .fetchRepositories,
         .started .fetchPrivateMetrics, .completed .fetchPrivateMetrics,
         .started .fetchReuseMetrics, .completed .fetchReuseMetrics,
         .started (.render .renderRepoGrowthChart), .completed (.render .renderRepoGrowthChart),
         .started (.render .renderOrgReposChart), .completed (.render .renderOrgReposChart),
         .started (.render .renderLangDistChart), .completed (.render .renderLangDistChart),
         .started (.render .renderStarsDistChart), .completed (.render .renderStarsDistChart),
         .started (.render .renderActivityTrendChart),
         .completed (.render .renderActivityTrendChart)]
    ∧ (∃ j, j < 6 ∧ (onDOMContentLoaded (⟨.json 0, .json [], fun q => (q, .normal),
        fun _ _ q => (q, .normal)⟩ : Env Nat) ⟨some [], [], []⟩).trace[j]?
          = some (.completed .fetchReuseMetrics))
    ∧ (∃ j, j < 4 ∧ (onDOMContentLoaded (⟨.json 0, .json [], fun q => (q, .normal),
        fun _ _ q => (q, .normal)⟩ : Env Nat) ⟨some [], [], []⟩).trace[j]?
          = some (.completed .fetchPrivateMetrics)) :=
  ⟨by decide,
   (handler_order _ _).1 6 .renderRepoGrowthChart (by decide),
   (handler_order _ _).2 4 (by decide)⟩

/-- C7, the behaviour of the code where the claim fails: when the fetch of
`data/repositories.json` fails, the handler rejects at line 51. Neither `fetchPrivateMetrics`
nor `fetchReuseMetrics` is called, the page is left as it was (no reuse block, no
diagnostic), whatever the other resource and the collaborators would have done. -/
theorem handler_repositories_failure {ρ : Type}
    (reuseMetrics : FetchOutcome (List MetricRecord))
    (fetchPrivate : Page → Page × Completion)
    (renderChart : Chart → ρ → Page → Page × Completion) (p : Page) :
    onDOMContentLoaded ⟨.networkError, reuseMetrics, fetchPrivate, renderChart⟩ p
      = ⟨p, [.started .fetchRepositories, .threw .fetchRepositories], .throw .networkError⟩
    ∧ Event.started .fetchPrivateMetrics
        ∉ (onDOMContentLoaded ⟨.networkError, reuseMetrics, fetchPrivate, renderChart⟩ p).trace
    ∧ Event.started .fetchReuseMetrics
        ∉ (onDOMContentLoaded ⟨.networkError, reuseMetrics, fetchPrivate, renderChart⟩ p).trace :=
  ⟨rfl, by simp [onDOMContentLoaded], by simp [onDOMContentLoaded]⟩

/-- The part of C7 that the code keeps: when the fetch of `data/reuse_metrics.json` fails
(the other resource loads and no collaborator throws), the private-metrics loader and all
five chart renderers run and complete. -/
theorem handler_reuse_failure_contained {ρ : Type} (env : Env ρ) (p : Page) (repoData : ρ)
    (hrepo : env.repositories = .json repoData)
    (hreuse : env.reuseMetrics = .networkError ∨ env.reuseMetrics = .malformed)
    (hpriv : ∀ q, (env.fetchPrivateMetrics q).2 = .normal)
    (hchart : ∀ c d q, (env.renderChart c d q).2 = .normal) :
    (onDOMContentLoaded env p).result = .normal
    ∧ (onDOMContentLoaded env p).trace
      = [.started .fetchRepositories, .completed .fetchRepositories,
         .started .fetchPrivateMetrics, .completed .fetchPrivateMetrics,
         .started .fetchReuseMetrics, .completed .fetchReuseMetrics,
         .started (.render .renderRepoGrowthChart), .completed (.render .renderRepoGrowthChart),
         .started (.render .renderOrgReposChart), .completed (.render .renderOrgReposChart),
         .started (.render .renderLangDistChart), .completed (.render .renderLangDistChart),
         .started (.render .renderStarsDistChart), .completed (.render .renderStarsDistChart),
         .started (.render .renderActivityTrendChart),
         .completed (.render .renderActivityTrendChart)] := by
  have hstep : ∀ (c : Chart) (cs : List Chart) (q : Page) (tr : List Event),
      renderCharts env repoData (c :: cs) q tr
        = renderCharts env repoData cs (env.renderChart c repoData q).1
            (tr ++ [.started (.render c), .completed (.render c)]) := by
    intro c cs q tr
    have h2 := hchart c repoData q
    rcases hx : env.renderChart c repoData q with ⟨q', r⟩
    rw [hx] at h2
    simp only at h2
    subst h2
    simp [renderCharts, hx]
  have hp := hpriv p
  rcases hx : env.fetchPrivateMetrics p with ⟨p1, r1⟩
  rw [hx] at hp
  simp only at hp
  subst hp
  have hr : (fetchReuseMetrics env.reuseMetrics p1).2 = .normal := by
    rcases hreuse with h | h <;> rw [h] <;> rfl
  rcases hy : fetchReuseMetrics env.reuseMetrics p1 with ⟨p2, r2⟩
  rw [hy] at hr
  simp only at hr
  subst hr
  unfold onDOMContentLoaded
  simp only [hrepo, hx, hy, chartCalls, hstep]
  exact ⟨rfl, rfl⟩

end ReuseMetrics
